import Mathlib

/-!
A shallow embedding of the ABAC policy-evaluation service of the
`user-services` repository (the `ABACService` class together with the types in
`src/types/abac.types.ts` and the default policy list in
`src/config/abac.config.ts`), with theorems checking the natural-language
specification against it.

Modelling conventions:
* JavaScript primitive values that can appear as subject/resource attributes
  or as condition expectations are modelled by `Value` (null, undefined,
  boolean, number, string).  Numbers are modelled as `Int`; no claim under
  verification depends on float behaviour.  An array-valued condition
  expectation (used by the `in`/`notIn` operators) is modelled by `CondValue`.
* A JavaScript object used as an attribute bag is an association list
  `AttrMap`; a later binding for the same key overrides an earlier one,
  exactly as object-spread does, so spreading is list append.
* The single impure read `new Date()` inside `evaluateTimeCondition` is made
  explicit as a `NowTime` argument, and `Date.now()` inside `loadPolicies` as
  an integer millisecond argument; the theorems about purity quantify over
  these.
* The `new Function(...)` custom-expression evaluation is a call into the
  JavaScript engine; its outcome is modelled by an oracle
  (`CustomOracle`) receiving exactly the data the source passes to the
  compiled function — the expression string, `user`, `resource`,
  `subscription` — and returning `none` when the call throws.
* The policy repository (`PolicyRepository.findAll`, a database read) is
  modelled by an `Except` value supplied by the environment: `.ok rows` for a
  successful read and `.error e` for a rejected promise.
-/

/-- Decidable equality for `Except`, used to evaluate theorems about the
repository outcome on concrete inputs. -/
instance {ε α : Type} [DecidableEq ε] [DecidableEq α] : DecidableEq (Except ε α) := fun x y =>
  match x, y with
  | Except.error a, Except.error b =>
    if h : a = b then Decidable.isTrue (h ▸ rfl)
    else Decidable.isFalse (fun hc => h (by injection hc))
  | Except.ok a, Except.ok b =>
    if h : a = b then Decidable.isTrue (h ▸ rfl)
    else Decidable.isFalse (fun hc => h (by injection hc))
  | Except.error _, Except.ok _ => Decidable.isFalse (fun hc => by injection hc)
  | Except.ok _, Except.error _ => Decidable.isFalse (fun hc => by injection hc)

/-- A JavaScript primitive value as it occurs in attribute maps. -/
inductive Value where
  | vNull
  | vUndef
  | vBool (b : Bool)
  | vNum (n : Int)
  | vStr (s : String)
deriving DecidableEq, Repr

/-- A condition's expected value (`value: any` in `Condition`): either a
primitive or an array of primitives (arrays are what `in`/`notIn` test). -/
inductive CondValue where
  | prim (v : Value)
  | arr (l : List Value)
deriving DecidableEq, Repr

/-- A JavaScript object used as an attribute bag: ordered key/value bindings,
where a later binding for a key overrides an earlier one (object spread). -/
abbrev AttrMap : Type := List (String × Value)

/-- Property read `obj[k]` restricted to the bindings present: the value of
the last binding of `k`, if any (a binding further down the list was written
later and overrides). -/
def getKey : AttrMap → String → Option Value
  | [], _ => none
  | p :: t, k =>
    match getKey t k with
    | some v => some v
    | none => if p.1 == k then some p.2 else none

/-- Property read `obj[k]` as JavaScript performs it: a missing key reads as
`undefined`. -/
def resGet (m : AttrMap) (k : String) : Value :=
  (getKey m k).getD Value.vUndef

/-- The `type` property of a resource object.  The TypeScript interface
guarantees it is a string; a missing or non-string binding defaults to `""`
purely for totality. -/
def resType (m : AttrMap) : String :=
  match getKey m "type" with
  | some (Value.vStr s) => s
  | _ => ""

/-- Models `s.split(':')[0]`: the characters before the first `':'` (the whole
string when there is none). -/
def baseSeg (s : String) : String :=
  String.mk (s.toList.takeWhile (fun c => c ≠ ':'))

/-- Contiguous-sublist test on character lists, used to model
`String.prototype.includes`. -/
def containsChars (needle : List Char) : List Char → Bool
  | [] => needle.isEmpty
  | c :: t => needle.isPrefixOf (c :: t) || containsChars needle t

/-- Models `s.includes(t)` for strings. -/
def strIncludes (s t : String) : Bool :=
  containsChars t.toList s.toList

/-- Models `s.startsWith(t)` for strings. -/
def strStarts (s t : String) : Bool :=
  t.toList.isPrefixOf s.toList

/-- Models `s.endsWith(t)` for strings. -/
def strEnds (s t : String) : Bool :=
  t.toList.isSuffixOf s.toList

/-- `PolicyEffect` from `abac.types.ts`. -/
inductive PolicyEffect where
  | ALLOW
  | DENY
deriving DecidableEq, Repr

/-- `Condition` from `abac.types.ts`.  The operator is kept as a string
because stored conditions come from JSON (`p.conditions as any`), so an
arbitrary operator string can reach the evaluator at runtime. -/
structure Condition where
  field : String
  operator : String
  value : CondValue
deriving DecidableEq, Repr

/-- The `hours` sub-object of `TimeCondition` (`{ start, end }`). -/
structure HourRange where
  start : Int
  «end» : Int
deriving DecidableEq, Repr

/-- `TimeCondition` from `abac.types.ts`.  The `before`/`after` ISO strings
are represented by the epoch instant `new Date(string)` parses them to. -/
structure TimeCondition where
  before : Option Int
  after : Option Int
  hours : Option HourRange
  daysOfWeek : Option (List Int)
deriving DecidableEq, Repr

/-- `GeoCondition` from `abac.types.ts`. -/
structure GeoCondition where
  allowedCountries : Option (List String)
  deniedCountries : Option (List String)
deriving DecidableEq, Repr

/-- `PolicyConditions` from `abac.types.ts`. -/
structure PolicyConditions where
  userAttribute : Option Condition
  resourceAttribute : Option Condition
  resourceOwnership : Option Condition
  time : Option TimeCondition
  geo : Option GeoCondition
  custom : Option String
deriving DecidableEq, Repr

/-- `ABACPolicy` from `abac.types.ts`. -/
structure ABACPolicy where
  id : String
  name : String
  description : Option String
  resource : String
  action : String
  effect : PolicyEffect
  conditions : Option PolicyConditions
  priority : Int
  userId : Option String
  enabled : Option Bool
  createdAt : Option String
  updatedAt : Option String
deriving DecidableEq, Repr

/-- The subject part of `ABACEvaluationContext`: the `id` property the
evaluator reads directly, plus the remaining bindings (`role`,
`subscriptionTier`, `email`, and arbitrary further keys) reached through
`context.user[field]`. -/
structure UserCtx where
  id : String
  attrs : AttrMap
deriving DecidableEq

/-- Property read `context.user[f]`. -/
def getUserAttr (u : UserCtx) (f : String) : Value :=
  if f == "id" then Value.vStr u.id else resGet u.attrs f

/-- The `subscription.limits` object of the evaluation context. -/
structure SubLimits where
  forms : Int
  fields : Int
  apiCalls : Int
deriving DecidableEq, Repr

/-- The optional `subscription` part of the evaluation context. -/
structure SubscriptionCtx where
  limits : SubLimits
deriving DecidableEq, Repr

/-- The optional `request` part of the evaluation context. -/
structure RequestCtx where
  ip : Option String
  country : Option String
  timestamp : Int
deriving DecidableEq, Repr

/-- `ABACEvaluationContext` from `abac.types.ts`.  The resource is an
attribute bag whose `"type"` binding is the resource type. -/
structure EvalCtx where
  user : UserCtx
  resource : AttrMap
  action : String
  subscription : Option SubscriptionCtx
  request : Option RequestCtx
deriving DecidableEq

/-- `context.request?.country`. -/
def reqCountry (ctx : EvalCtx) : Option String :=
  match ctx.request with
  | some r => r.country
  | none => none

/-- `PolicyEvaluationResult` from `abac.types.ts` (the `filteredFields` slot
is never set by `evaluate` and stays `undefined`). -/
structure PolicyEvaluationResult where
  allowed : Bool
  deniedBy : Option (List String)
  allowedBy : Option (List String)
  filteredFields : Option (List String)
deriving DecidableEq, Repr

/-- The instant `new Date()` read inside `evaluateTimeCondition`: its epoch
milliseconds together with the derived `getHours()` and `getDay()` values. -/
structure NowTime where
  epochMs : Int
  hour : Int
  day : Int
deriving DecidableEq, Repr

/-- Outcome of handing an expression string to the JavaScript engine
(`new Function('user','resource','subscription', ...)` followed by the call):
`none` models a throw, `some b` the returned value coerced to boolean.  The
oracle receives exactly the data the source passes in. -/
def CustomOracle : Type :=
  String → UserCtx → AttrMap → Option SubscriptionCtx → Option Bool

namespace ABACService

/-- Strict equality `value === expectedValue` between an attribute value and
a condition expectation (an array literal is never strictly equal to a
primitive). -/
def jsStrictEq (v : Value) (cv : CondValue) : Bool :=
  match cv with
  | CondValue.prim w => v == w
  | CondValue.arr _ => false

/-- The `>` comparison of `evaluateCondition`; JavaScript relational
comparison restricted to same-typed numbers and strings (the only shapes the
stored policies compare). -/
def jsGt (v : Value) (cv : CondValue) : Bool :=
  match v, cv with
  | Value.vNum a, CondValue.prim (Value.vNum b) => decide (a > b)
  | Value.vStr a, CondValue.prim (Value.vStr b) => decide (b < a)
  | _, _ => false

/-- The `<` comparison of `evaluateCondition`. -/
def jsLt (v : Value) (cv : CondValue) : Bool :=
  match v, cv with
  | Value.vNum a, CondValue.prim (Value.vNum b) => decide (a < b)
  | Value.vStr a, CondValue.prim (Value.vStr b) => decide (a < b)
  | _, _ => false

/-- The `>=` comparison of `evaluateCondition`. -/
def jsGe (v : Value) (cv : CondValue) : Bool :=
  match v, cv with
  | Value.vNum a, CondValue.prim (Value.vNum b) => decide (a ≥ b)
  | Value.vStr a, CondValue.prim (Value.vStr b) => decide (b < a) || b == a
  | _, _ => false

/-- The `<=` comparison of `evaluateCondition`. -/
def jsLe (v : Value) (cv : CondValue) : Bool :=
  match v, cv with
  | Value.vNum a, CondValue.prim (Value.vNum b) => decide (a ≤ b)
  | Value.vStr a, CondValue.prim (Value.vStr b) => decide (a < b) || a == b
  | _, _ => false

/-- `ABACService.evaluateCondition`: dispatch on the operator string with a
fail-closed default branch. -/
def evaluateCondition (c : Condition) (value : Value) : Bool :=
  match c.operator with
  | "equals" => jsStrictEq value c.value
  | "notEquals" => !(jsStrictEq value c.value)
  | "in" =>
    match c.value with
    | CondValue.arr l => l.contains value
    | _ => false
  | "notIn" =>
    match c.value with
    | CondValue.arr l => !(l.contains value)
    | _ => false
  | "greater" => jsGt value c.value
  | "less" => jsLt value c.value
  | "greaterOrEqual" => jsGe value c.value
  | "lessOrEqual" => jsLe value c.value
  | "contains" =>
    match value, c.value with
    | Value.vStr s, CondValue.prim (Value.vStr t) => strIncludes s t
    | _, _ => false
  | "startsWith" =>
    match value, c.value with
    | Value.vStr s, CondValue.prim (Value.vStr t) => strStarts s t
    | _, _ => false
  | "endsWith" =>
    match value, c.value with
    | Value.vStr s, CondValue.prim (Value.vStr t) => strEnds s t
    | _, _ => false
  | _ => false

/-- `ABACService.evaluateTimeCondition`.  The source begins with
`const now = new Date()`; that ambient read is the explicit `now` argument
here.  Each sub-check is an early `return false` in the source. -/
def evaluateTimeCondition (tc : TimeCondition) (now : NowTime) : Bool :=
  if (match tc.before with
      | some b => decide (now.epochMs > b)
      | none => false) then false
  else if (match tc.after with
      | some a => decide (now.epochMs < a)
      | none => false) then false
  else if (match tc.hours with
      | some hr =>
        if hr.start ≤ hr.«end» then
          decide (now.hour < hr.start) || decide (now.hour ≥ hr.«end»)
        else
          decide (now.hour < hr.start) && decide (now.hour ≥ hr.«end»)
      | none => false) then false
  else if (match tc.daysOfWeek with
      | some ds => !(ds.contains now.day)
      | none => false) then false
  else true

/-- `ABACService.evaluateGeoCondition`.  `if (!requestCountry)` treats both a
missing country and the empty string as unknown. -/
def evaluateGeoCondition (gc : GeoCondition) (requestCountry : Option String) : Bool :=
  match requestCountry with
  | none => true
  | some c =>
    if c = "" then true
    else
      match gc.allowedCountries with
      | some l => l.contains c
      | none =>
        match gc.deniedCountries with
        | some l => !(l.contains c)
        | none => true

/-- `ABACService.evaluateCustomExpression`: destructures
`{user, resource, subscription}` from the context, hands them with the
expression to the JavaScript engine (the oracle), and catches any throw as
`false`. -/
def evaluateCustomExpression (o : CustomOracle) (expression : String) (ctx : EvalCtx) : Bool :=
  (o expression ctx.user ctx.resource ctx.subscription).getD false

/-- The `resourceOwnership.value === '{{user.id}}'` placeholder substitution
performed inside `policyMatches`. -/
def resolveOwnershipValue (v : CondValue) (ctx : EvalCtx) : CondValue :=
  if v = CondValue.prim (Value.vStr "{{user.id}}") then
    CondValue.prim (Value.vStr ctx.user.id)
  else v

/-- An `if (maybeField ...) return false` guard of the source: the guard
fires when the optional field is present and its failure test holds. -/
def optFails {α : Type} (o : Option α) (bad : α → Bool) : Bool :=
  match o with
  | some a => bad a
  | none => false

/-- `ABACService.policyMatches`: the sequence of early `return false` guards
of the source — resource pattern, action pattern, user scoping, then each
clause of the condition set when one is present.  String-typed optional
fields (`userId`, `custom`) are guarded by JavaScript truthiness, so an empty
string behaves as absent. -/
def policyMatches (o : CustomOracle) (now : NowTime) (policy : ABACPolicy) (ctx : EvalCtx) : Bool :=
  if (policy.resource != "*" && policy.resource != resType ctx.resource) &&
      (baseSeg policy.resource != baseSeg (resType ctx.resource) &&
        policy.resource != "*") then
    false
  else if policy.action != "*" && policy.action != ctx.action then
    false
  else if optFails policy.userId (fun u => u != "" && u != ctx.user.id) then
    false
  else
    match policy.conditions with
    | none => true
    | some conds =>
      if optFails conds.userAttribute
          (fun ua => !(evaluateCondition ua (getUserAttr ctx.user ua.field))) then false
      else if optFails conds.resourceAttribute
          (fun ra => !(evaluateCondition ra (resGet ctx.resource ra.field))) then false
      else if optFails conds.resourceOwnership
          (fun ro =>
            !(evaluateCondition { ro with value := resolveOwnershipValue ro.value ctx }
                (resGet ctx.resource ro.field))) then false
      else if optFails conds.time (fun t => !(evaluateTimeCondition t now)) then false
      else if optFails conds.geo
          (fun g => !(evaluateGeoCondition g (reqCountry ctx))) then false
      else if optFails conds.custom
          (fun e => e != "" && !(evaluateCustomExpression o e ctx)) then false
      else true

/-- Stable insertion of a policy into a list sorted by descending priority:
it is placed after every element of greater-or-equal priority. -/
def insertByPriority (p : ABACPolicy) : List ABACPolicy → List ABACPolicy
  | [] => [p]
  | q :: qs =>
    if q.priority ≥ p.priority then q :: insertByPriority p qs
    else p :: q :: qs

/-- Models `.sort((a, b) => b.priority - a.priority)`.  ECMAScript `sort` is
a stable sort, and a stable sort's output is uniquely determined by the
comparator, so stable insertion sort is a faithful model. -/
def sortByPriorityDesc : List ABACPolicy → List ABACPolicy
  | [] => []
  | p :: ps => insertByPriority p (sortByPriorityDesc ps)

/-- The id-collecting loop of `evaluate`: walk the applicable policies in
order, pushing Deny ids into the first list and Allow ids into the second. -/
def collectIds : List ABACPolicy → List String × List String
  | [] => ([], [])
  | p :: ps =>
    let rest := collectIds ps
    if p.effect == PolicyEffect.DENY then (p.id :: rest.1, rest.2)
    else if p.effect == PolicyEffect.ALLOW then (rest.1, p.id :: rest.2)
    else rest

/-- Core of `ABACService.evaluate`, after the policy list has been obtained
from `loadPolicies`: filter to the matching policies, sort by priority
descending, collect deny/allow ids, and resolve deny-overrides-allow. -/
def evaluate (o : CustomOracle) (now : NowTime) (policies : List ABACPolicy)
    (ctx : EvalCtx) : PolicyEvaluationResult :=
  let applicablePolicies :=
    sortByPriorityDesc (policies.filter (fun p => policyMatches o now p ctx))
  let ids := collectIds applicablePolicies
  let deniedBy := ids.1
  let allowedBy := ids.2
  let allowed := decide (deniedBy.length = 0) && decide (allowedBy.length > 0)
  { allowed := allowed
    deniedBy := if deniedBy.length > 0 then some deniedBy else none
    allowedBy := if allowedBy.length > 0 then some allowedBy else none
    filteredFields := none }

/-- The synthetic per-field sub-context built inside `filterFields`:
`{ ...context, resource: { ...context.resource, type: parentType + ":field",
...field } }`.  Spread is append, with later bindings overriding. -/
def mkFieldContext (ctx : EvalCtx) (field : AttrMap) : EvalCtx :=
  { ctx with
    resource :=
      ctx.resource ++ (("type", Value.vStr (resType ctx.resource ++ ":field")) :: field) }

/-- `ABACService.filterFields`: the loop that keeps each field whose
sub-context evaluation returns `allowed`. -/
def filterFields (o : CustomOracle) (now : NowTime) (policies : List ABACPolicy)
    (ctx : EvalCtx) : List AttrMap → List AttrMap
  | [] => []
  | f :: rest =>
    if (evaluate o now policies (mkFieldContext ctx f)).allowed then
      f :: filterFields o now policies ctx rest
    else
      filterFields o now policies ctx rest

/-- The Prisma `PolicyEffect` enum of the stored rows. -/
inductive PrismaEffect where
  | allow
  | deny
deriving DecidableEq, Repr

/-- A row returned by `PolicyRepository.findAll` (the Prisma `Policy` model).
The `createdAt`/`updatedAt` dates are represented by their ISO renderings. -/
structure PrismaPolicy where
  id : String
  name : String
  description : Option String
  resource : String
  action : String
  effect : PrismaEffect
  conditions : Option PolicyConditions
  priority : Int
  userId : Option String
  enabled : Bool
  createdAt : String
  updatedAt : String
deriving DecidableEq, Repr

/-- The row-to-`ABACPolicy` mapping inside `loadPolicies` (`p.description ||
undefined` and `p.userId || undefined` turn empty strings and nulls into
absence). -/
def toABACPolicy (p : PrismaPolicy) : ABACPolicy :=
  { id := p.id
    name := p.name
    description :=
      match p.description with
      | some d => if d = "" then none else some d
      | none => none
    resource := p.resource
    action := p.action
    effect :=
      match p.effect with
      | PrismaEffect.allow => PolicyEffect.ALLOW
      | PrismaEffect.deny => PolicyEffect.DENY
    conditions := p.conditions
    priority := p.priority
    userId :=
      match p.userId with
      | some u => if u = "" then none else some u
      | none => none
    enabled := some p.enabled
    createdAt := some p.createdAt
    updatedAt := some p.updatedAt }

/-- `defaultPolicies` from `src/config/abac.config.ts`: every entry of the
baseline list is commented out in the source, so the compiled-in default
policy set is empty. -/
def defaultPolicies : List ABACPolicy := []

/-- `CACHE_TTL`: five minutes in milliseconds. -/
def CACHE_TTL : Int := 5 * 60 * 1000

/-- The mutable fields of an `ABACService` instance. -/
structure ABACState where
  cachedPolicies : List ABACPolicy
  lastCacheUpdate : Int
deriving DecidableEq

/-- The constructor-time state (`cachedPolicies = []`, `lastCacheUpdate = 0`). -/
def initState : ABACState :=
  { cachedPolicies := [], lastCacheUpdate := 0 }

/-- `ABACService.loadPolicies`.  `nowMs` is the `Date.now()` read; `repo` is
the outcome of `policyRepository.findAll()`.  A rejected repository promise
propagates out of the method before any field of the instance is assigned,
so the state is returned unchanged alongside the error. -/
def loadPolicies {ε : Type} (nowMs : Int) (repo : Except ε (List PrismaPolicy))
    (st : ABACState) : ABACState × Except ε (List ABACPolicy) :=
  if st.cachedPolicies.length > 0 ∧ nowMs - st.lastCacheUpdate < CACHE_TTL then
    (st, Except.ok st.cachedPolicies)
  else
    match repo with
    | Except.error e => (st, Except.error e)
    | Except.ok customPolicies =>
      let newPolicies :=
        defaultPolicies ++ (customPolicies.filter (fun p => p.enabled)).map toABACPolicy
      ({ cachedPolicies := newPolicies, lastCacheUpdate := nowMs },
        Except.ok newPolicies)

/-- `ABACService.evaluate` including its `loadPolicies` call: a repository
failure aborts evaluation; otherwise the loaded list feeds the pure core. -/
def evaluateS {ε : Type} (o : CustomOracle) (now : NowTime) (nowMs : Int)
    (repo : Except ε (List PrismaPolicy)) (st : ABACState) (ctx : EvalCtx) :
    ABACState × Except ε PolicyEvaluationResult :=
  match loadPolicies nowMs repo st with
  | (st', Except.error e) => (st', Except.error e)
  | (st', Except.ok policies) => (st', Except.ok (evaluate o now policies ctx))

/-- `ABACService.clearCache`. -/
def clearCache (_st : ABACState) : ABACState :=
  { cachedPolicies := [], lastCacheUpdate := 0 }

/-- All policy ids reported by an evaluation result (`deniedBy` and
`allowedBy`, an absent list contributing nothing). -/
def reportedIds (r : PolicyEvaluationResult) : List String :=
  r.deniedBy.getD [] ++ r.allowedBy.getD []

end ABACService

/-- The matching predicate as the specification words it: the resource
pattern is `*`, equals the context resource type, or has the same first
`:`-segment; the action pattern is `*` or equals the action; a scoping
`userId`, when carried, equals the subject id; and every clause present in
the condition set evaluates to satisfied (absence of the condition set
matches unconditionally).  Clause satisfaction is the evaluators' own
verdict, as §4.2 of the specification defines it. -/
def policyMatchesSpec (o : CustomOracle) (now : NowTime) (policy : ABACPolicy)
    (ctx : EvalCtx) : Prop :=
  (policy.resource = "*" ∨ policy.resource = resType ctx.resource
    ∨ baseSeg policy.resource = baseSeg (resType ctx.resource))
  ∧ (policy.action = "*" ∨ policy.action = ctx.action)
  ∧ (∀ u, policy.userId = some u → u = ctx.user.id)
  ∧ (∀ conds, policy.conditions = some conds →
      (∀ ua, conds.userAttribute = some ua →
        ABACService.evaluateCondition ua (getUserAttr ctx.user ua.field) = true)
      ∧ (∀ ra, conds.resourceAttribute = some ra →
        ABACService.evaluateCondition ra (resGet ctx.resource ra.field) = true)
      ∧ (∀ ro, conds.resourceOwnership = some ro →
        ABACService.evaluateCondition
          { ro with value := ABACService.resolveOwnershipValue ro.value ctx }
          (resGet ctx.resource ro.field) = true)
      ∧ (∀ t, conds.time = some t → ABACService.evaluateTimeCondition t now = true)
      ∧ (∀ g, conds.geo = some g →
        ABACService.evaluateGeoCondition g (reqCountry ctx) = true)
      ∧ (∀ e, conds.custom = some e →
        ABACService.evaluateCustomExpression o e ctx = true))

/-- Modelled from the claim's wording of `filterFields`: keep each field
whose synthetic sub-context — resource type `"{parentType}:field"` merged
with the field's attributes, and action fixed to `"read"` — evaluates to
allowed.  This is the claimed behaviour, to be compared with the source's
`filterFields`, which does not touch the action. -/
def filterFieldsClaim (o : CustomOracle) (now : NowTime) (policies : List ABACPolicy)
    (ctx : EvalCtx) (fields : List AttrMap) : List AttrMap :=
  fields.filter (fun f =>
    (ABACService.evaluate o now policies
      { ABACService.mkFieldContext ctx f with action := "read" }).allowed)

/-- The cache invariant of the implicit claim: every cached policy is either
one of the compiled-in defaults or an enabled custom policy. -/
def CacheInv (st : ABACService.ABACState) : Prop :=
  ∀ p ∈ st.cachedPolicies, p ∈ ABACService.defaultPolicies ∨ p.enabled = some true

/-- Replaces the request environment's `timestamp` and `ip` (when a request
environment is present), leaving every other part of the context intact. -/
def setReqEnv (ctx : EvalCtx) (t : Int) (ip : Option String) : EvalCtx :=
  { ctx with request := ctx.request.map (fun r => { r with timestamp := t, ip := ip }) }

/-- A sandbox oracle under which every custom expression throws. -/
def exOracle : CustomOracle := fun _ _ _ _ => none

/-- A concrete evaluation context used by counterexamples and witnesses. -/
def exCtx : EvalCtx :=
  { user := { id := "u1", attrs := [("role", Value.vStr "user")] }
    resource := [("type", Value.vStr "form"), ("userId", Value.vStr "u1")]
    action := "read"
    subscription := none
    request := some { ip := none, country := none, timestamp := 0 } }

/-- `exCtx` with the action `"write"`. -/
def exCtxWrite : EvalCtx := { exCtx with action := "write" }

/-- A clock instant at 10:00. -/
def exNow10 : NowTime := { epochMs := 0, hour := 10, day := 1 }

/-- A clock instant at 20:00. -/
def exNow20 : NowTime := { epochMs := 0, hour := 20, day := 1 }

/-- A concrete Allow policy with no conditions on resource `form`. -/
def exPolicyAllow : ABACPolicy :=
  { id := "P1", name := "p1", description := none, resource := "form", action := "*"
    effect := PolicyEffect.ALLOW, conditions := none, priority := 100
    userId := none, enabled := none, createdAt := none, updatedAt := none }

/-- A concrete Allow policy whose only clause is a business-hours (9–17)
time condition on any resource and action. -/
def exPolicyTime : ABACPolicy :=
  { exPolicyAllow with
    resource := "*"
    conditions := some
      { userAttribute := none
        resourceAttribute := none
        resourceOwnership := none
        time := some { before := none, after := none
                       hours := some { start := 9, «end» := 17 }, daysOfWeek := none }
        geo := none
        custom := none } }

/-- A concrete Allow policy for reading `form:field` resources. -/
def exPolicyRead : ABACPolicy :=
  { exPolicyAllow with resource := "form:field", action := "read" }

/-- A concrete enabled stored policy row. -/
def exPrismaPolicy : ABACService.PrismaPolicy :=
  { id := "C1", name := "custom", description := none, resource := "form"
    action := "read", effect := ABACService.PrismaEffect.deny, conditions := none
    priority := 150, userId := none, enabled := true
    createdAt := "2024-01-01T00:00:00.000Z", updatedAt := "2024-01-01T00:00:00.000Z" }

/-! Helper lemmas about the embedding's building blocks. -/

/-- Unfolds one binding of `getKey`: a later binding wins over `p`. -/
theorem getKey_append (a b : AttrMap) (k : String) :
    getKey (a ++ b) k = match getKey b k with
      | some v => some v
      | none => getKey a k := by
  induction a with
  | nil => cases hb : getKey b k <;> simp [getKey, hb]
  | cons p t ih =>
    show getKey (p :: (t ++ b)) k = _
    rw [getKey, ih]
    cases hb : getKey b k <;> cases ht : getKey t k <;> simp [getKey, hb, ht]

/-- Membership through stable priority insertion. -/
theorem mem_insertByPriority (p q : ABACPolicy) (l : List ABACPolicy) :
    q ∈ ABACService.insertByPriority p l ↔ q = p ∨ q ∈ l := by
  induction l with
  | nil => simp [ABACService.insertByPriority]
  | cons r t ih =>
    by_cases h : r.priority ≥ p.priority
    · simp only [ABACService.insertByPriority, if_pos h, List.mem_cons, ih]
      tauto
    · simp only [ABACService.insertByPriority, if_neg h, List.mem_cons]

/-- Sorting by priority preserves membership. -/
theorem mem_sortByPriorityDesc (q : ABACPolicy) (l : List ABACPolicy) :
    q ∈ ABACService.sortByPriorityDesc l ↔ q ∈ l := by
  induction l with
  | nil => simp [ABACService.sortByPriorityDesc]
  | cons p t ih =>
    simp [ABACService.sortByPriorityDesc, mem_insertByPriority, ih]

/-- The deny side of the id-collecting loop. -/
theorem collectIds_fst (l : List ABACPolicy) :
    (ABACService.collectIds l).1
      = (l.filter (fun p => p.effect == PolicyEffect.DENY)).map (fun p => p.id) := by
  induction l with
  | nil => rfl
  | cons p t ih =>
    cases he : p.effect <;> simp [ABACService.collectIds, he, ih]

/-- The allow side of the id-collecting loop. -/
theorem collectIds_snd (l : List ABACPolicy) :
    (ABACService.collectIds l).2
      = (l.filter (fun p => p.effect == PolicyEffect.ALLOW)).map (fun p => p.id) := by
  induction l with
  | nil => rfl
  | cons p t ih =>
    cases he : p.effect <;> simp [ABACService.collectIds, he, ih]

/-- An optional-field guard does not fire iff every present value passes. -/
theorem optFails_eq_false {α : Type} (o : Option α) (bad : α → Bool) :
    ABACService.optFails o bad = false ↔ ∀ a, o = some a → bad a = false := by
  cases o <;> simp [ABACService.optFails]

/-- Normalises a `return false` guard into a conjunction. -/
theorem ifGuard_eq (c x : Bool) : (if c = true then false else x) = (!c && x) := by
  cases c <;> simp

/-- C7: for a time clause whose hour range has `start > end`, the hour
sub-check (isolated here by leaving every other sub-condition absent) is
satisfied exactly for hours `h ≥ start` or `h < end` (overnight wraparound);
for `start ≤ end` it is satisfied exactly for `start ≤ h < end`. -/
theorem hour_range_wraparound_spec (s e h em d : Int) :
    (s > e →
      (ABACService.evaluateTimeCondition
          { before := none, after := none, hours := some { start := s, «end» := e }
            daysOfWeek := none }
          { epochMs := em, hour := h, day := d } = true ↔ (h ≥ s ∨ h < e)))
    ∧ (s ≤ e →
      (ABACService.evaluateTimeCondition
          { before := none, after := none, hours := some { start := s, «end» := e }
            daysOfWeek := none }
          { epochMs := em, hour := h, day := d } = true ↔ (s ≤ h ∧ h < e))) := by
  constructor
  · intro hse
    have hnle : ¬ (s ≤ e) := by omega
    simp [ABACService.evaluateTimeCondition, hnle]
  · intro hse
    simp [ABACService.evaluateTimeCondition, hse]

/-- Witness for C7 at the specification's concrete range 22–6: evaluating at
23:00 passes and at 10:00 fails. -/
theorem hour_range_wraparound_witness :
    (22:Int) > 6
    ∧ ABACService.evaluateTimeCondition
        { before := none, after := none, hours := some { start := 22, «end» := 6 }
          daysOfWeek := none }
        { epochMs := 0, hour := 23, day := 0 } = true
    ∧ ABACService.evaluateTimeCondition
        { before := none, after := none, hours := some { start := 22, «end» := 6 }
          daysOfWeek := none }
        { epochMs := 0, hour := 10, day := 0 } = false := by
  refine ⟨by omega, ?_, ?_⟩
  · exact ((hour_range_wraparound_spec 22 6 23 0 0).1 (by omega)).mpr (by omega)
  · refine Bool.eq_false_iff.mpr (fun htrue => ?_)
    have hc := ((hour_range_wraparound_spec 22 6 10 0 0).1 (by omega)).mp htrue
    omega

/-- C6: a geography clause passes unconditionally when the request country
is absent or unknown (the empty string); otherwise a present allow-list
decides by membership with any deny-list ignored; otherwise a present
deny-list decides by non-membership; with neither list it passes. -/
theorem geoCondition_spec (g : GeoCondition) (c : Option String) :
    ((c = none ∨ c = some "") → ABACService.evaluateGeoCondition g c = true)
    ∧ (∀ cc l, c = some cc → cc ≠ "" → g.allowedCountries = some l →
        (ABACService.evaluateGeoCondition g c = true ↔ cc ∈ l))
    ∧ (∀ cc l, c = some cc → cc ≠ "" → g.allowedCountries = none →
        g.deniedCountries = some l →
        (ABACService.evaluateGeoCondition g c = true ↔ cc ∉ l))
    ∧ (∀ cc, c = some cc → cc ≠ "" → g.allowedCountries = none →
        g.deniedCountries = none → ABACService.evaluateGeoCondition g c = true) := by
  refine ⟨?_, ?_, ?_, ?_⟩
  · rintro (rfl | rfl) <;> simp [ABACService.evaluateGeoCondition]
  · rintro cc l rfl hne hal
    simp [ABACService.evaluateGeoCondition, hne, hal]
  · rintro cc l rfl hne hal hde
    simp [ABACService.evaluateGeoCondition, hne, hal, hde]
  · rintro cc rfl hne hal hde
    simp [ABACService.evaluateGeoCondition, hne, hal, hde]

/-- Witness for C6: with country `"US"`, an allow-list containing `"US"`
passes even though the deny-list also contains `"US"`; with no country the
clause passes outright. -/
theorem geoCondition_spec_witness :
    ABACService.evaluateGeoCondition
      { allowedCountries := some ["US"], deniedCountries := some ["US"] } none = true
    ∧ (ABACService.evaluateGeoCondition
        { allowedCountries := some ["US"], deniedCountries := some ["US"] }
        (some "US") = true ↔ "US" ∈ ["US"]) := by
  constructor
  · exact (geoCondition_spec
      { allowedCountries := some ["US"], deniedCountries := some ["US"] } none).1
      (Or.inl rfl)
  · exact (geoCondition_spec
      { allowedCountries := some ["US"], deniedCountries := some ["US"] }
      (some "US")).2.1 "US" ["US"] rfl (by decide) rfl

/-- C10: in the synthetic per-field sub-context of `filterFields`, the
field's own bindings are spread after the computed type, so any binding the
field carries (including `"type"`, `"userId"`, `"visibility"`, …) overrides
both the synthetic `"{parentType}:field"` type and the parent resource's
binding of the same key; the synthetic type is only seen when the field has
no `"type"` binding of its own. -/
theorem fieldContext_override_spec (ctx : EvalCtx) (field : AttrMap) :
    (∀ k v, getKey field k = some v →
      getKey (ABACService.mkFieldContext ctx field).resource k = some v)
    ∧ (getKey field "type" = none →
      getKey (ABACService.mkFieldContext ctx field).resource "type"
        = some (Value.vStr (resType ctx.resource ++ ":field"))) := by
  constructor
  · intro k v hv
    show getKey (ctx.resource ++
      (("type", Value.vStr (resType ctx.resource ++ ":field")) :: field)) k = some v
    rw [getKey_append]
    simp [getKey, hv]
  · intro hnone
    show getKey (ctx.resource ++
      (("type", Value.vStr (resType ctx.resource ++ ":field")) :: field)) "type" = _
    rw [getKey_append]
    simp [getKey, hnone]

/-- Witness for C10: a field carrying `type = "secret"` forces the
sub-context resource type to `"secret"`, overriding both the synthetic
`"form:field"` and the parent's `"form"`. -/
theorem fieldContext_override_witness :
    getKey [("type", Value.vStr "secret")] "type" = some (Value.vStr "secret")
    ∧ getKey (ABACService.mkFieldContext exCtx
        [("type", Value.vStr "secret")]).resource "type"
      = some (Value.vStr "secret") :=
  ⟨by decide,
    (fieldContext_override_spec exCtx [("type", Value.vStr "secret")]).1
      "type" (Value.vStr "secret") (by decide)⟩

/-- Emptiness of an effect-filtered view of the sorted applicable policies
coincides with emptiness of the corresponding one-pass filter of the input
list. -/
theorem sorted_effect_filter_eq_nil (m q : ABACPolicy → Bool) (pols : List ABACPolicy) :
    ((ABACService.sortByPriorityDesc (pols.filter m)).filter q = []) ↔
      (pols.filter (fun p => m p && q p) = []) := by
  simp only [List.filter_eq_nil_iff, mem_sortByPriorityDesc, List.mem_filter,
    Bool.and_eq_true]
  constructor
  · intro hall p hp hmq
    exact hall p ⟨hp, hmq.1⟩ hmq.2
  · intro hall p hp hq
    exact hall p hp.1 ⟨hp.2, hq⟩

/-- C1: `evaluate` grants access exactly when no matching Deny policy exists
and at least one matching Allow policy exists; with zero matching policies
the conjunction fails (default deny), and any matching Deny policy defeats
every matching Allow policy regardless of priorities. -/
theorem evaluate_allowed_iff (o : CustomOracle) (now : NowTime)
    (pols : List ABACPolicy) (ctx : EvalCtx) :
    (ABACService.evaluate o now pols ctx).allowed = true ↔
      ((pols.filter (fun p => ABACService.policyMatches o now p ctx
          && p.effect == PolicyEffect.DENY)).map (fun p => p.id) = []
        ∧ (pols.filter (fun p => ABACService.policyMatches o now p ctx
          && p.effect == PolicyEffect.ALLOW)).map (fun p => p.id) ≠ []) := by
  have hd := sorted_effect_filter_eq_nil
    (fun p => ABACService.policyMatches o now p ctx)
    (fun p => p.effect == PolicyEffect.DENY) pols
  have ha := sorted_effect_filter_eq_nil
    (fun p => ABACService.policyMatches o now p ctx)
    (fun p => p.effect == PolicyEffect.ALLOW) pols
  simp only [ABACService.evaluate, collectIds_fst, collectIds_snd,
    Bool.and_eq_true, decide_eq_true_eq, List.length_eq_zero, List.length_pos,
    List.map_eq_nil_iff, ne_eq, hd, ha]

/-- C3 counterexample: `filterFields` does not fix the sub-context action to
`"read"`.  With a parent context whose action is `"write"` and a policy that
allows exactly `read` on `form:field`, the claimed behaviour keeps the field
while the source drops it. -/
theorem filterFields_read_claim_cex :
    ABACService.filterFields exOracle exNow10 [exPolicyRead] exCtxWrite [[]] = []
    ∧ filterFieldsClaim exOracle exNow10 [exPolicyRead] exCtxWrite [[]] = [[]]
    ∧ ABACService.filterFields exOracle exNow10 [exPolicyRead] exCtxWrite [[]]
        ≠ filterFieldsClaim exOracle exNow10 [exPolicyRead] exCtxWrite [[]] :=
  ⟨by decide, by decide, by decide⟩

/-- C3 (amended): `filterFields` returns exactly the subsequence, in original
order (and empty input giving empty output), of the fields whose synthetic
sub-context — resource type `"{parentType}:field"` merged with the field's
own attributes, action inherited unchanged from the parent context —
evaluates to allowed. -/
theorem filterFields_filter_spec (o : CustomOracle) (now : NowTime)
    (pols : List ABACPolicy) (ctx : EvalCtx) (fields : List AttrMap) :
    ABACService.filterFields o now pols ctx fields
      = fields.filter (fun f =>
          (ABACService.evaluate o now pols (ABACService.mkFieldContext ctx f)).allowed)
    ∧ ABACService.filterFields o now pols ctx ([] : List AttrMap) = []
    ∧ (ABACService.filterFields o now pols ctx fields).Sublist fields := by
  have h1 : ∀ fs : List AttrMap,
      ABACService.filterFields o now pols ctx fs
        = fs.filter (fun f =>
            (ABACService.evaluate o now pols (ABACService.mkFieldContext ctx f)).allowed) := by
    intro fs
    induction fs with
    | nil => rfl
    | cons f t ih =>
      cases hb : (ABACService.evaluate o now pols (ABACService.mkFieldContext ctx f)).allowed <;>
        simp [ABACService.filterFields, hb, ih]
  refine ⟨h1 fields, rfl, ?_⟩
  rw [h1 fields]
  exact List.filter_sublist fields

/-- C4 counterexample: with one business-hours Allow policy, the same context
and the same policy list evaluate to different results at different
wall-clock instants, because `evaluateTimeCondition` reads the ambient clock. -/
theorem evaluate_wallclock_cex :
    (ABACService.evaluate exOracle exNow10 [exPolicyTime] exCtx).allowed = true
    ∧ (ABACService.evaluate exOracle exNow20 [exPolicyTime] exCtx).allowed = false
    ∧ ABACService.evaluate exOracle exNow10 [exPolicyTime] exCtx
        ≠ ABACService.evaluate exOracle exNow20 [exPolicyTime] exCtx :=
  ⟨by decide, by decide, by decide⟩

/-- Matching never reads the request environment's `timestamp` or `ip`. -/
theorem policyMatches_setReqEnv (o : CustomOracle) (now : NowTime) (p : ABACPolicy)
    (ctx : EvalCtx) (t : Int) (ip : Option String) :
    ABACService.policyMatches o now p (setReqEnv ctx t ip)
      = ABACService.policyMatches o now p ctx := by
  have h1 : reqCountry (setReqEnv ctx t ip) = reqCountry ctx := by
    unfold setReqEnv reqCountry
    cases ctx.request <;> rfl
  unfold ABACService.policyMatches
  rw [h1]
  rfl

/-- C4 (amended): evaluation is a deterministic function of the ambient
clock instant, the sandbox outcome, the policy list, and the context apart
from the request environment's `timestamp` and `ip`, which are never read —
in particular the time-clause evaluation uses the wall clock, not the
context's request timestamp. -/
theorem evaluate_ignores_request_env (o : CustomOracle) (now : NowTime)
    (pols : List ABACPolicy) (ctx : EvalCtx) (t : Int) (ip : Option String) :
    ABACService.evaluate o now pols (setReqEnv ctx t ip)
      = ABACService.evaluate o now pols ctx := by
  unfold ABACService.evaluate
  rw [List.filter_congr (fun p _ => policyMatches_setReqEnv o now p ctx t ip)]

/-- C8: when the cache is empty or stale, a failing store read propagates
its error unchanged out of `loadPolicies` and out of `evaluate`, producing
no evaluation result and leaving the cached policy state untouched. -/
theorem loadPolicies_error_propagates {ε : Type} (e : ε) (o : CustomOracle)
    (now : NowTime) (nowMs : Int) (st : ABACService.ABACState) (ctx : EvalCtx)
    (h : st.cachedPolicies = [] ∨ nowMs - st.lastCacheUpdate ≥ ABACService.CACHE_TTL) :
    ABACService.loadPolicies nowMs (Except.error e) st = (st, Except.error e)
    ∧ ABACService.evaluateS o now nowMs (Except.error e) st ctx
        = (st, Except.error e) := by
  have hcond : ¬(st.cachedPolicies.length > 0
      ∧ nowMs - st.lastCacheUpdate < ABACService.CACHE_TTL) := by
    rcases h with h | h
    · intro hc
      rw [h] at hc
      simp at hc
    · intro hc
      exact (not_lt.mpr h) hc.2
  have h1 : ABACService.loadPolicies nowMs (Except.error e) st
      = (st, Except.error e) := by
    unfold ABACService.loadPolicies
    rw [if_neg hcond]
  refine ⟨h1, ?_⟩
  unfold ABACService.evaluateS
  rw [h1]

/-- Witness for C8: a failing read on the fresh (empty-cache) state. -/
theorem loadPolicies_error_propagates_witness :
    (ABACService.initState.cachedPolicies = []
      ∨ (0:Int) - ABACService.initState.lastCacheUpdate ≥ ABACService.CACHE_TTL)
    ∧ ABACService.loadPolicies 0 (Except.error "store unreachable")
        ABACService.initState
      = (ABACService.initState, Except.error "store unreachable")
    ∧ ABACService.evaluateS exOracle exNow10 0 (Except.error "store unreachable")
        ABACService.initState exCtx
      = (ABACService.initState, Except.error "store unreachable") :=
  ⟨Or.inl rfl,
    (loadPolicies_error_propagates "store unreachable" exOracle exNow10 0
      ABACService.initState exCtx (Or.inl rfl)).1,
    (loadPolicies_error_propagates "store unreachable" exOracle exNow10 0
      ABACService.initState exCtx (Or.inl rfl)).2⟩

/-- Membership in the optional id list `evaluate` reports implies membership
in the underlying collected list. -/
theorem mem_optIdList (l : List String) (i : String)
    (h : i ∈ (if l.length > 0 then some l else none : Option (List String)).getD []) :
    i ∈ l := by
  split at h
  · exact h
  · simp at h

/-- Every policy in a freshly combined cache list is a compiled-in default
or an enabled custom policy. -/
theorem mem_combined_policies {rows : List ABACService.PrismaPolicy} {p : ABACPolicy}
    (hp : p ∈ ABACService.defaultPolicies
      ++ (rows.filter (fun r => r.enabled)).map ABACService.toABACPolicy) :
    p ∈ ABACService.defaultPolicies ∨ p.enabled = some true := by
  rcases List.mem_append.mp hp with h | h
  · exact Or.inl h
  · rcases List.mem_map.mp h with ⟨r, hr, rfl⟩
    have hen : r.enabled = true := (List.mem_filter.mp hr).2
    right
    simp [ABACService.toABACPolicy, hen]

/-- C9: the cached policy list contains only compiled-in defaults and
enabled custom policies — the invariant holds initially, is preserved by
`loadPolicies` (and by the list it returns) and by `clearCache` — and every
id `evaluate` reports in `deniedBy`/`allowedBy` belongs to a policy of the
evaluated list that actually matched, so a disabled custom policy, being
absent from that list, is never reported and never affects the decision. -/
theorem cache_enabled_invariant :
    CacheInv ABACService.initState
    ∧ (∀ (ε : Type) (nowMs : Int) (repo : Except ε (List ABACService.PrismaPolicy))
        (st : ABACService.ABACState), CacheInv st →
        CacheInv (ABACService.loadPolicies nowMs repo st).1)
    ∧ (∀ (ε : Type) (nowMs : Int) (repo : Except ε (List ABACService.PrismaPolicy))
        (st : ABACService.ABACState) (pols : List ABACPolicy), CacheInv st →
        (ABACService.loadPolicies nowMs repo st).2 = Except.ok pols →
        ∀ p ∈ pols, p ∈ ABACService.defaultPolicies ∨ p.enabled = some true)
    ∧ (∀ st : ABACService.ABACState, CacheInv (ABACService.clearCache st))
    ∧ (∀ (o : CustomOracle) (now : NowTime) (pols : List ABACPolicy) (ctx : EvalCtx)
        (i : String),
        i ∈ ABACService.reportedIds (ABACService.evaluate o now pols ctx) →
        ∃ p, p ∈ pols ∧ p.id = i ∧ ABACService.policyMatches o now p ctx = true) := by
  refine ⟨?_, ?_, ?_, ?_, ?_⟩
  · intro p hp
    simp [ABACService.initState] at hp
  · intro ε nowMs repo st hst
    unfold ABACService.loadPolicies
    split
    · exact hst
    · cases repo with
      | error e => exact hst
      | ok rows =>
        intro p hp
        exact mem_combined_policies hp
  · intro ε nowMs repo st pols hst hok
    unfold ABACService.loadPolicies at hok
    split at hok
    · cases hok
      exact hst
    · cases repo with
      | error e => cases hok
      | ok rows =>
        cases hok
        intro p hp
        exact mem_combined_policies hp
  · intro st p hp
    simp [ABACService.clearCache] at hp
  · intro o now pols ctx i hi
    simp only [ABACService.reportedIds, ABACService.evaluate] at hi
    have hmem : ∀ (q : ABACPolicy → Bool),
        i ∈ ((ABACService.sortByPriorityDesc
            (pols.filter (fun p => ABACService.policyMatches o now p ctx))).filter
            q).map (fun p => p.id) →
        ∃ p, p ∈ pols ∧ p.id = i ∧ ABACService.policyMatches o now p ctx = true := by
      intro q hq
      rcases List.mem_map.mp hq with ⟨p, hp, hpi⟩
      have hps := (List.mem_filter.mp hp).1
      have hpl := (mem_sortByPriorityDesc p _).mp hps
      have hin := List.mem_filter.mp hpl
      exact ⟨p, hin.1, hpi, hin.2⟩
    rcases List.mem_append.mp hi with h | h
    · rw [collectIds_fst] at h
      exact hmem _ (mem_optIdList _ _ h)
    · rw [collectIds_snd] at h
      exact hmem _ (mem_optIdList _ _ h)

/-- Witness for C9: loading one enabled stored policy over the fresh state
preserves the invariant. -/
theorem cache_enabled_invariant_witness :
    CacheInv (ABACService.loadPolicies 0
      (Except.ok (ε := String) [exPrismaPolicy]) ABACService.initState).1 :=
  cache_enabled_invariant.2.1 String 0 (Except.ok [exPrismaPolicy])
    ABACService.initState
    (by intro p hp; simp [ABACService.initState] at hp)

/-- A guard of the shape `present and not satisfied` does not fire iff every
present value is satisfied. -/
theorem optFails_not_eq_false {α : Type} (opt : Option α) (f : α → Bool) :
    ABACService.optFails opt (fun a => !(f a)) = false
      ↔ ∀ a, opt = some a → f a = true := by
  rw [optFails_eq_false]
  simp

/-- C2: `policyMatches` holds exactly when the resource pattern is `*`, the
exact resource type, or shares its first `:`-segment with it; the action
pattern is `*` or the exact action; the scoping `userId`, when carried,
equals the subject's id; and every clause present in the condition set is
satisfied, an absent condition set matching unconditionally.  Following
JavaScript truthiness, the hypotheses exclude the degenerate empty-string
`userId` and empty-string custom expression, which the source treats as
absent (and which the repository mapping `p.userId || undefined` can never
produce). -/
theorem policyMatches_spec_iff (o : CustomOracle) (now : NowTime) (policy : ABACPolicy)
    (ctx : EvalCtx) (hscope : policy.userId ≠ some "")
    (hcustom : ∀ conds, policy.conditions = some conds → conds.custom ≠ some "") :
    ABACService.policyMatches o now policy ctx = true
      ↔ policyMatchesSpec o now policy ctx := by
  have hres : (policy.resource != "*" && policy.resource != resType ctx.resource &&
      (baseSeg policy.resource != baseSeg (resType ctx.resource)
        && policy.resource != "*")) = false
      ↔ (policy.resource = "*" ∨ policy.resource = resType ctx.resource
          ∨ baseSeg policy.resource = baseSeg (resType ctx.resource)) := by
    rw [Bool.eq_false_iff]
    simp only [ne_eq, Bool.and_eq_true, bne_iff_ne, not_and, not_not]
    tauto
  have hact : (policy.action != "*" && policy.action != ctx.action) = false
      ↔ (policy.action = "*" ∨ policy.action = ctx.action) := by
    rw [Bool.eq_false_iff]
    simp only [ne_eq, Bool.and_eq_true, bne_iff_ne, not_and, not_not]
    tauto
  have hsc : (ABACService.optFails policy.userId
        (fun u => u != "" && u != ctx.user.id)) = false
      ↔ (∀ u, policy.userId = some u → u = ctx.user.id) := by
    rw [optFails_eq_false]
    cases hu : policy.userId with
    | none => simp
    | some u =>
      have hne : u ≠ "" := fun h => hscope (by rw [hu, h])
      simp only [Option.some.injEq, forall_eq']
      rw [Bool.eq_false_iff]
      simp only [ne_eq, Bool.and_eq_true, bne_iff_ne, not_and, not_not]
      tauto
  unfold ABACService.policyMatches
  simp only [ifGuard_eq]
  simp only [Bool.and_eq_true, Bool.not_eq_true']
  refine and_congr hres (and_congr hact (and_congr hsc ?_))
  cases hpc : policy.conditions with
  | none => simp
  | some conds =>
    simp only [Option.some.injEq, forall_eq', Bool.and_eq_true, Bool.not_eq_true',
      and_true]
    have hcu : (ABACService.optFails conds.custom
          (fun e => e != "" && !(ABACService.evaluateCustomExpression o e ctx))) = false
        ↔ ∀ e, conds.custom = some e
            → ABACService.evaluateCustomExpression o e ctx = true := by
      rw [optFails_eq_false]
      cases hce : conds.custom with
      | none => simp
      | some e =>
        have hne : e ≠ "" := fun h => hcustom conds hpc (by rw [hce, h])
        simp only [Option.some.injEq, forall_eq']
        rw [Bool.eq_false_iff]
        simp only [ne_eq, Bool.and_eq_true, bne_iff_ne, not_and, not_not,
          Bool.not_eq_true, Bool.not_eq_false, Bool.not_eq_false']
        tauto
    exact and_congr
      (optFails_not_eq_false conds.userAttribute
        (fun ua => ABACService.evaluateCondition ua (getUserAttr ctx.user ua.field)))
      (and_congr
        (optFails_not_eq_false conds.resourceAttribute
          (fun ra => ABACService.evaluateCondition ra (resGet ctx.resource ra.field)))
        (and_congr
          (optFails_not_eq_false conds.resourceOwnership
            (fun ro => ABACService.evaluateCondition
              { ro with value := ABACService.resolveOwnershipValue ro.value ctx }
              (resGet ctx.resource ro.field)))
          (and_congr
            (optFails_not_eq_false conds.time
              (fun t => ABACService.evaluateTimeCondition t now))
            (and_congr
              (optFails_not_eq_false conds.geo
                (fun g => ABACService.evaluateGeoCondition g (reqCountry ctx)))
              hcu))))

/-- Witness for C2 at a concrete unconditioned policy and context. -/
theorem policyMatches_spec_iff_witness :
    exPolicyAllow.userId ≠ some ""
    ∧ (∀ conds, exPolicyAllow.conditions = some conds → conds.custom ≠ some "")
    ∧ (ABACService.policyMatches exOracle exNow10 exPolicyAllow exCtx = true
        ↔ policyMatchesSpec exOracle exNow10 exPolicyAllow exCtx) :=
  ⟨by decide,
    by intro c hc; simp [exPolicyAllow] at hc,
    policyMatches_spec_iff exOracle exNow10 exPolicyAllow exCtx (by decide)
      (by intro c hc; simp [exPolicyAllow] at hc)⟩
